import Mathlib

/-!
Verification of `src/server/db/compare.rs` (Moonfire NVR): comparison of the
actual and expected on-disk SQLite schema.

The module has three layers, embedded here as follows.

* Data model: `Column`, `Index`, `IndexColumn` mirror the Rust structs field
  for field.  `Value` mirrors `rusqlite::types::Value` (the dynamically typed
  SQLite scalar); its `f64` payload is abstracted to its bit pattern carried
  as a `Nat`, since no property in scope depends on float semantics, and blob
  bytes are carried as `List Nat`.

* Diff engine: `diff_slices` is translated from the source, including the
  `changed` flag and the exact header/line rendering.  Its call into the
  external `diff` crate (`diff::slice`) is embedded as `diffSlice`, the
  longest-common-subsequence walk that crate performs: equal heads align as
  `Both`; otherwise the side whose remaining LCS is at least as long is
  consumed first, preferring the left sequence on ties.

* Introspection and driver: a `rusqlite::Connection`, as seen by this module,
  is four catalog queries; `Conn` models it as the four query results, each a
  value of `Except CatalogError _` since every call can fail.  `get_tables`,
  `get_table_columns`, `get_indices`, `get_index_columns` and `get_diffs`
  follow the source.  The literal query strings built with `format!` in the
  source are embedded separately (`tableInfoQuery`, `indexListQuery`,
  `indexInfoQuery`) over `List Char`, for the identifier-quoting property.

Rendering note: the Rust `Display` impls forward to the derived `Debug`
formatting.  The renderers `dispColumn`, `dispIndex`, `dispIndexColumn`
reproduce that shape (Rust escapes special characters inside debug-quoted
strings; that escaping is elided here, as no property in scope depends on the
rendered characters, only on renderings being applied elementwise).
-/

namespace SchemaCompare

/-- Models `rusqlite::types::Value`, the dynamically typed SQLite scalar held
in `Column.dflt_value`.  The `Real` variant's `f64` payload is abstracted to
its bit pattern (a `Nat`); `Blob` bytes are `List Nat`. -/
inductive Value where
  | null
  | integer (i : Int)
  | real (bits : Nat)
  | text (t : String)
  | blob (b : List Nat)
deriving DecidableEq, Repr

/-- One row of `pragma table_info`: the struct `Column` of the source
(cid, name, type_, notnull, dflt_value, pk), with derived `PartialEq`. -/
structure Column where
  cid : Nat
  name : String
  type_ : String
  notnull : Bool
  dflt_value : Value
  pk : Nat
deriving DecidableEq, Repr

/-- One row of `pragma index_list`: the struct `Index` of the source
(seq, name, unique, origin, partial), with derived `PartialEq`.  The last
field is named `partial_` because its Rust name is a Lean keyword. -/
structure Index where
  seq : Nat
  name : String
  unique : Bool
  origin : String
  partial_ : Bool
deriving DecidableEq, Repr

/-- One row of `pragma index_info`: the struct `IndexColumn` of the source
(seqno, cid, name), with derived `PartialEq`. -/
structure IndexColumn where
  seqno : Nat
  cid : Nat
  name : String
deriving DecidableEq, Repr

/-- Debug rendering of a Rust `String`: quoted (interior escaping elided; see
the header note). -/
def debugString (s : String) : String := "\"" ++ s ++ "\""

/-- Debug rendering of a Rust `bool`. -/
def dispBool (b : Bool) : String := if b then "true" else "false"

/-- Debug rendering of `rusqlite::types::Value`. -/
def dispValue : Value → String
  | .null => "Null"
  | .integer i => "Integer(" ++ toString i ++ ")"
  | .real bits => "Real(" ++ toString bits ++ ")"
  | .text t => "Text(" ++ debugString t ++ ")"
  | .blob b => "Blob(" ++ toString b ++ ")"

/-- The `Display` impl for `Column`: it forwards to the derived `Debug`
format. -/
def dispColumn (c : Column) : String :=
  "Column \x7b cid: " ++ toString c.cid ++
  ", name: " ++ debugString c.name ++
  ", type_: " ++ debugString c.type_ ++
  ", notnull: " ++ dispBool c.notnull ++
  ", dflt_value: " ++ dispValue c.dflt_value ++
  ", pk: " ++ toString c.pk ++ " \x7d"

/-- The `Display` impl for `Index`: it forwards to the derived `Debug`
format. -/
def dispIndex (i : Index) : String :=
  "Index \x7b seq: " ++ toString i.seq ++
  ", name: " ++ debugString i.name ++
  ", unique: " ++ dispBool i.unique ++
  ", origin: " ++ debugString i.origin ++
  ", partial: " ++ dispBool i.partial_ ++ " \x7d"

/-- The `Display` impl for `IndexColumn`: it forwards to the derived `Debug`
format. -/
def dispIndexColumn (ic : IndexColumn) : String :=
  "IndexColumn \x7b seqno: " ++ toString ic.seqno ++
  ", cid: " ++ toString ic.cid ++
  ", name: " ++ debugString ic.name ++ " \x7d"

/-- The `Display` rendering of a table name in the table-list diff: Rust's
`Display` for `String` is the string itself. -/
def dispString (s : String) : String := s

/-! ## The diff engine -/

/-- Models `diff::Result` of the external `diff` crate: an element of the
aligned sequence produced by `diff::slice` (`Left` holds an element only in
the first slice, `Both` a common element from each side, `Right` an element
only in the second slice). -/
inductive DiffItem (α : Type u) where
  | left (a : α)
  | both (a b : α)
  | right (b : α)
deriving DecidableEq, Repr

/-- Length of a longest common subsequence, the quantity tabulated by the
`diff` crate's dynamic program (its `table[i][j]` is
`lcsLen (left drop i) (right drop j)`). -/
def lcsLen [DecidableEq α] : List α → List α → Nat
  | [], _ => 0
  | _ :: _, [] => 0
  | a :: as, b :: bs =>
    if a = b then lcsLen as bs + 1
    else max (lcsLen as (b :: bs)) (lcsLen (a :: as) bs)
termination_by l1 l2 => l1.length + l2.length

/-- Models `diff::slice` of the external `diff` crate: the walk over the LCS
table.  Equal heads align as `Both`; otherwise the crate consumes from the
left slice when `table[i+1][j] >= table[i][j+1]`, that is when the LCS left
after consuming from the left slice is at least as long, and from the right
slice otherwise. -/
def diffSlice [DecidableEq α] : List α → List α → List (DiffItem α)
  | [], [] => []
  | a :: as, [] => .left a :: diffSlice as []
  | [], b :: bs => .right b :: diffSlice [] bs
  | a :: as, b :: bs =>
    if a = b then .both a b :: diffSlice as bs
    else if lcsLen (a :: as) bs ≤ lcsLen as (b :: bs) then
      .left a :: diffSlice as (b :: bs)
    else
      .right b :: diffSlice (a :: as) bs
termination_by l1 l2 => l1.length + l2.length

/-- One rendered line of the loop body of `diff_slices`: `writeln!` of the
element prefixed by `-`, a space, or `+`.  `Both` prints its first
component, as the source does. -/
def renderItem (disp : α → String) : DiffItem α → String
  | .left i => "-" ++ disp i ++ "\n"
  | .both i _ => " " ++ disp i ++ "\n"
  | .right i => "+" ++ disp i ++ "\n"

/-- The function `diff_slices` of the source: starts the buffer with the two
header lines, folds over `diff::slice`'s output appending one line per item
while tracking the `changed` flag, and returns `None` exactly when the flag
stayed `false`.  The `Display` bound of the Rust generic is the explicit
`disp` argument. -/
def diff_slices [DecidableEq α] (disp : α → String) (n1 : String) (l1 : List α)
    (n2 : String) (l2 : List α) : Option String :=
  let r := (diffSlice l1 l2).foldl
    (fun acc item =>
      match item with
      | .left i => (acc.1 ++ ("-" ++ disp i ++ "\n"), true)
      | .both i _ => (acc.1 ++ (" " ++ disp i ++ "\n"), acc.2)
      | .right i => (acc.1 ++ ("+" ++ disp i ++ "\n"), true))
    ("--- " ++ n1 ++ "\n+++ " ++ n2 ++ "\n", false)
  if r.2 then some r.1 else none

/-- Models `fmt::Write::write_str` for `String`: `push_str` then `Ok(())`.
Per the standard library this writer is infallible, hence always `.ok`. -/
def writeString (buf s : String) : Except Unit String := .ok (buf ++ s)

/-- The body of `diff_slices` with every `writeln!` result threaded
explicitly and the `.unwrap()` modelled: a write error would panic, which
this embedding represents by `none`.  Used to state that the unwrap never
fires. -/
def diff_slices_checked [DecidableEq α] (disp : α → String) (n1 : String)
    (l1 : List α) (n2 : String) (l2 : List α) : Option (Option String) :=
  let folded := (diffSlice l1 l2).foldl
    (fun acc item =>
      match acc with
      | none => none
      | some (buf, changed) =>
        let res := match item with
          | .left i => (writeString buf ("-" ++ disp i ++ "\n"), true)
          | .both i _ => (writeString buf (" " ++ disp i ++ "\n"), changed)
          | .right i => (writeString buf ("+" ++ disp i ++ "\n"), true)
        match res with
        | (.error _, _) => none
        | (.ok buf2, changed2) => some (buf2, changed2))
    (some ("--- " ++ n1 ++ "\n+++ " ++ n2 ++ "\n", false))
  match folded with
  | none => none
  | some (buf, changed) => some (if changed then some buf else none)

/-! ## Introspection -/

/-- An error from a catalog query (`rusqlite::Error` as this module sees it:
opaque, carried untouched). -/
structure CatalogError where
  msg : String
deriving DecidableEq, Repr

/-- Models `rusqlite::Connection` as this module uses it: the results of the
four catalog queries the module issues.  Each is an `Except` value because
every call can fail (closed connection, corrupt catalog); the SQL evaluation
itself happens inside SQLite and is abstracted into these fields. -/
structure Conn where
  tables : Except CatalogError (List String)
  tableColumns : String → Except CatalogError (List Column)
  indices : String → Except CatalogError (List Index)
  indexColumns : String → Except CatalogError (List IndexColumn)

/-- The function `get_tables` of the source: the sorted table-name query
against the connection's catalog. -/
def get_tables (c : Conn) : Except CatalogError (List String) := c.tables

/-- The function `get_table_columns` of the source: `pragma table_info` rows
for the given table. -/
def get_table_columns (c : Conn) (table : String) :
    Except CatalogError (List Column) := c.tableColumns table

/-- The function `get_indices` of the source: `pragma index_list` rows for
the given table, in catalog order. -/
def get_indices (c : Conn) (table : String) :
    Except CatalogError (List Index) := c.indices table

/-- The function `get_index_columns` of the source: `pragma index_info` rows
for the given index. -/
def get_index_columns (c : Conn) (index : String) :
    Except CatalogError (List IndexColumn) := c.indexColumns index

/-- The query string `get_table_columns` builds:
`format!("pragma table_info(\"{table}\")")`, naive interpolation of the name
between double quotes (the source comment: placeholders are not allowed for
pragmas, "Just assume sane table names (no escaping)"). -/
def tableInfoQuery (table : List Char) : List Char :=
  "pragma table_info(\"".data ++ table ++ "\")".data

/-- The query string `get_indices` builds:
`format!("pragma index_list(\"{table}\")")`. -/
def indexListQuery (table : List Char) : List Char :=
  "pragma index_list(\"".data ++ table ++ "\")".data

/-- The query string `get_index_columns` builds:
`format!("pragma index_info(\"{index}\")")`. -/
def indexInfoQuery (index : List Char) : List Char :=
  "pragma index_info(\"".data ++ index ++ "\")".data

/-- SQLite lexing of a double-quoted identifier body: consumes characters
after the opening quote up to the closing quote, reading `""` as an escaped
quote character; returns the identifier denoted and the text after the
closing quote, or `none` when the quote is unterminated. -/
def scanQuotedIdent : List Char → Option (List Char × List Char)
  | [] => none
  | c :: rest =>
    if c = '"' then
      match rest with
      | r0 :: rest2 =>
        if r0 = '"' then
          match scanQuotedIdent rest2 with
          | some (body, r) => some ('"' :: body, r)
          | none => none
        else some ([], rest)
      | [] => some ([], [])
    else
      match scanQuotedIdent rest with
      | some (body, r) => some (c :: body, r)
      | none => none

/-- Whether a query string is syntactically a single-identifier pragma call:
the fixed prefix `kw` (keyword, opening parenthesis and opening quote), then
one double-quoted identifier, then exactly the closing parenthesis.  Returns
the identifier the query refers to, or `none` when the query has any other
syntax. -/
def parseIdentQuery (kw q : List Char) : Option (List Char) :=
  if q.take kw.length = kw then
    match scanQuotedIdent (q.drop kw.length) with
    | some (body, rest) => if rest = [')'] then some body else none
    | none => none
  else none

/-! ## The comparison driver -/

/-- Sorting of an index list before comparison:
`indices.sort_by(|a, b| a.name.cmp(&b.name))` in the source. -/
def sortIndices (l : List Index) : List Index :=
  l.mergeSort (fun a b => decide (a.name ≤ b.name))

/-- One appended report block: the source's
`write!(&mut diffs, "{label}{diff}")` under `if let Some(diff) = ...`;
nothing is appended when the diff is absent. -/
def labeledBlock (label : String) : Option String → String
  | some d => label ++ d
  | none => ""

/-- The inner loop of `get_diffs` over a table's (sorted) index list: for
each index, fetch both sides' `pragma index_info` rows and append a labeled
block when they differ.  Catalog errors abort via `?` as in the source. -/
def indexColumnBlocks (n1 : String) (c1 : Conn) (n2 : String) (c2 : Conn)
    (t : String) : List Index → Except CatalogError String
  | [] => .ok ""
  | i :: rest =>
    match get_index_columns c1 i.name with
    | .error e => .error e
    | .ok ic1 =>
    match get_index_columns c2 i.name with
    | .error e => .error e
    | .ok ic2 =>
    match indexColumnBlocks n1 c1 n2 c2 t rest with
    | .error e => .error e
    | .ok rest_s =>
      .ok (labeledBlock
            ("table " ++ debugString t ++ " index " ++ dispIndex i ++
              " columns " ++ n1 ++ " vs " ++ n2 ++ ":\n")
            (diff_slices dispIndexColumn n1 ic1 n2 ic2) ++ rest_s)

/-- The per-table loop of `get_diffs`: for each table of the first
connection's table list, compare columns, compare name-sorted index lists,
then run the index-column loop over the first connection's sorted indices.
Catalog errors abort via `?` as in the source. -/
def tableBlocks (n1 : String) (c1 : Conn) (n2 : String) (c2 : Conn) :
    List String → Except CatalogError String
  | [] => .ok ""
  | t :: rest =>
    match get_table_columns c1 t with
    | .error e => .error e
    | .ok columns1 =>
    match get_table_columns c2 t with
    | .error e => .error e
    | .ok columns2 =>
    match get_indices c1 t with
    | .error e => .error e
    | .ok indices1 =>
    match get_indices c2 t with
    | .error e => .error e
    | .ok indices2 =>
    match indexColumnBlocks n1 c1 n2 c2 t (sortIndices indices1) with
    | .error e => .error e
    | .ok ic_s =>
    match tableBlocks n1 c1 n2 c2 rest with
    | .error e => .error e
    | .ok rest_s =>
      .ok (labeledBlock
            ("table " ++ debugString t ++ " column, " ++ n1 ++ " vs " ++ n2 ++ ":\n")
            (diff_slices dispColumn n1 columns1 n2 columns2) ++
          labeledBlock
            ("table " ++ debugString t ++ " indices, " ++ n1 ++ " vs " ++ n2 ++ ":\n")
            (diff_slices dispIndex n1 (sortIndices indices1) n2 (sortIndices indices2)) ++
          ic_s ++ rest_s)

/-- The public entry point `get_diffs` of the source: diff the table lists,
then run the per-table comparison over the first connection's tables, and
return `None` exactly when the accumulated report is empty.  Any catalog
error aborts the whole comparison via `?`. -/
def get_diffs (n1 : String) (c1 : Conn) (n2 : String) (c2 : Conn) :
    Except CatalogError (Option String) :=
  match get_tables c1 with
  | .error e => .error e
  | .ok tables1 =>
  match get_tables c2 with
  | .error e => .error e
  | .ok tables2 =>
  match tableBlocks n1 c1 n2 c2 tables1 with
  | .error e => .error e
  | .ok body =>
    let diffs := labeledBlock
      ("table list mismatch, " ++ n1 ++ " vs " ++ n2 ++ ":\n")
      (diff_slices dispString n1 tables1 n2 tables2) ++ body
    .ok (if diffs.isEmpty then none else some diffs)

/-! ## Concrete sample connections, used to evaluate the development on
closed inputs -/

/-- A sample catalog error. -/
def errNo : CatalogError := ⟨"no such object"⟩

/-- Sample column `id INTEGER PRIMARY KEY`. -/
def colId : Column := ⟨0, "id", "INTEGER", false, Value.null, 1⟩

/-- Sample column `ts INTEGER NOT NULL`. -/
def colTs : Column := ⟨1, "ts", "INTEGER", true, Value.null, 0⟩

/-- Sample index `events_ts`. -/
def idxTs : Index := ⟨0, "events_ts", false, "c", false⟩

/-- Sample index `events_start`. -/
def idxStart : Index := ⟨1, "events_start", false, "c", false⟩

/-- Sample index-column binding for `ts`. -/
def icTs : IndexColumn := ⟨0, 1, "ts"⟩

/-- Sample index-column binding for `id`. -/
def icId : IndexColumn := ⟨1, 0, "id"⟩

/-- Sample connection: one table `events(id, ts)` carrying the two sample
indices; `events_ts` covers `(ts, id)` and `events_start` covers `(ts)`. -/
def connA : Conn where
  tables := .ok ["events"]
  tableColumns := fun t => if t = "events" then .ok [colId, colTs] else .error errNo
  indices := fun t => if t = "events" then .ok [idxTs, idxStart] else .error errNo
  indexColumns := fun i =>
    if i = "events_ts" then .ok [icTs, icId]
    else if i = "events_start" then .ok [icTs] else .error errNo

/-- The sample connection with its index list enumerated in the opposite
order (same index set). -/
def connAperm : Conn where
  tables := .ok ["events"]
  tableColumns := fun t => if t = "events" then .ok [colId, colTs] else .error errNo
  indices := fun t => if t = "events" then .ok [idxStart, idxTs] else .error errNo
  indexColumns := fun i =>
    if i = "events_ts" then .ok [icTs, icId]
    else if i = "events_start" then .ok [icTs] else .error errNo

/-- The sample connection with the columns of index `events_ts` swapped
(same column set, opposite sequence positions). -/
def connAswap : Conn where
  tables := .ok ["events"]
  tableColumns := fun t => if t = "events" then .ok [colId, colTs] else .error errNo
  indices := fun t => if t = "events" then .ok [idxTs, idxStart] else .error errNo
  indexColumns := fun i =>
    if i = "events_ts" then .ok [icId, icTs]
    else if i = "events_start" then .ok [icTs] else .error errNo

/-! ## Analysis definitions -/

/-- Whether an aligned item marks a change (sets the `changed` flag of
`diff_slices`). -/
def isChange : DiffItem α → Bool
  | .left _ => true
  | .both _ _ => false
  | .right _ => true

/-- The first slice, read back from an alignment: the `Left` elements and the
left components of the `Both` elements, in order. -/
def restoreLeft : List (DiffItem α) → List α
  | [] => []
  | .left a :: d => a :: restoreLeft d
  | .both a _ :: d => a :: restoreLeft d
  | .right _ :: d => restoreLeft d

/-- The second slice, read back from an alignment: the `Right` elements and
the right components of the `Both` elements, in order. -/
def restoreRight : List (DiffItem α) → List α
  | [] => []
  | .left _ :: d => restoreRight d
  | .both _ b :: d => b :: restoreRight d
  | .right b :: d => b :: restoreRight d

/-- The matched pairs of an alignment: the `(left, right)` components of its
`Both` items, in order. -/
def bothPairs : List (DiffItem α) → List (α × α)
  | [] => []
  | .left _ :: d => bothPairs d
  | .both a b :: d => (a, b) :: bothPairs d
  | .right _ :: d => bothPairs d

/-- The concatenation of the rendered lines of an alignment, one line per
item. -/
def renderAll (disp : α → String) : List (DiffItem α) → String
  | [] => ""
  | i :: rest => renderItem disp i ++ renderAll disp rest

/-! ## Which introspection calls a comparison makes, and which succeed -/

/-- Whether a catalog call succeeded. -/
def isOkB {β : Type v} : Except CatalogError β → Bool
  | .ok _ => true
  | .error _ => false

/-- Every `pragma index_info` call the driver makes for the given index list
succeeds, on both connections. -/
def indexIntroOk (c1 c2 : Conn) (is : List Index) : Bool :=
  is.all fun i =>
    isOkB (get_index_columns c1 i.name) && isOkB (get_index_columns c2 i.name)

/-- Every introspection call the driver makes for the given table succeeds:
columns and index lists on both connections, then `pragma index_info` for
each index of the first connection's sorted index list. -/
def tableIntroOk (c1 c2 : Conn) (t : String) : Bool :=
  isOkB (get_table_columns c1 t) && isOkB (get_table_columns c2 t) &&
  isOkB (get_indices c1 t) && isOkB (get_indices c2 t) &&
  (match get_indices c1 t with
   | .ok l => indexIntroOk c1 c2 (sortIndices l)
   | .error _ => false)

/-- Every introspection call `get_diffs n1 c1 n2 c2` makes succeeds: the two
table-list queries, then the per-table calls for every table of the first
connection's list.  These are exactly the calls the source's control flow
reaches when none fails. -/
def introOk (c1 c2 : Conn) : Bool :=
  match get_tables c1, get_tables c2 with
  | .ok t1, .ok _ => t1.all (tableIntroOk c1 c2)
  | _, _ => false

/-- Every index-column comparison for the given index list found no
difference (and the calls it needed succeeded). -/
def indexNoBlocks (n1 : String) (c1 : Conn) (n2 : String) (c2 : Conn)
    (is : List Index) : Bool :=
  is.all fun i =>
    match get_index_columns c1 i.name, get_index_columns c2 i.name with
    | .ok a, .ok b => (diff_slices dispIndexColumn n1 a n2 b).isNone
    | _, _ => false

/-- Every comparison the driver runs for the given table found no
difference: equal columns, equal name-sorted index lists, and equal column
bindings for every index of the first connection's sorted list. -/
def tableNoBlocks (n1 : String) (c1 : Conn) (n2 : String) (c2 : Conn)
    (t : String) : Bool :=
  (match get_table_columns c1 t, get_table_columns c2 t with
   | .ok a, .ok b => (diff_slices dispColumn n1 a n2 b).isNone
   | _, _ => false) &&
  (match get_indices c1 t, get_indices c2 t with
   | .ok l1, .ok l2 =>
     (diff_slices dispIndex n1 (sortIndices l1) n2 (sortIndices l2)).isNone &&
       indexNoBlocks n1 c1 n2 c2 (sortIndices l1)
   | _, _ => false)

/-- No comparison in the whole run appended a diff block: the table lists
are equal and every per-table comparison found no difference. -/
def noBlocks (n1 : String) (c1 : Conn) (n2 : String) (c2 : Conn) : Bool :=
  match get_tables c1, get_tables c2 with
  | .ok t1, .ok t2 =>
    (diff_slices dispString n1 t1 n2 t2).isNone &&
      t1.all (tableNoBlocks n1 c1 n2 c2)
  | _, _ => false


/-! ## Diff-engine theory -/

theorem restoreLeft_diffSlice [DecidableEq α] (l1 l2 : List α) :
    restoreLeft (diffSlice l1 l2) = l1 := by
  induction l1, l2 using diffSlice.induct with
  | case1 => simp [diffSlice, restoreLeft]
  | case2 a as ih => simp [diffSlice, restoreLeft, ih]
  | case3 b bs ih => simp [diffSlice, restoreLeft, ih]
  | case4 as b bs ih => simp [diffSlice, restoreLeft, ih]
  | case5 a as b bs hne hle ih => simp [diffSlice, restoreLeft, hne, hle, ih]
  | case6 a as b bs hne hgt ih => simp [diffSlice, restoreLeft, hne, hgt, ih]

theorem restoreRight_diffSlice [DecidableEq α] (l1 l2 : List α) :
    restoreRight (diffSlice l1 l2) = l2 := by
  induction l1, l2 using diffSlice.induct with
  | case1 => simp [diffSlice, restoreRight]
  | case2 a as ih => simp [diffSlice, restoreRight, ih]
  | case3 b bs ih => simp [diffSlice, restoreRight, ih]
  | case4 as b bs ih => simp [diffSlice, restoreRight, ih]
  | case5 a as b bs hne hle ih => simp [diffSlice, restoreRight, hne, hle, ih]
  | case6 a as b bs hne hgt ih => simp [diffSlice, restoreRight, hne, hgt, ih]

theorem bothPairs_diffSlice_eq [DecidableEq α] (l1 l2 : List α) :
    ∀ p ∈ bothPairs (diffSlice l1 l2), p.1 = p.2 := by
  induction l1, l2 using diffSlice.induct with
  | case1 => simp [diffSlice, bothPairs]
  | case2 a as ih => simpa [diffSlice, bothPairs] using ih
  | case3 b bs ih => simpa [diffSlice, bothPairs] using ih
  | case4 as b bs ih =>
    intro p hp
    simp only [diffSlice, if_pos rfl, bothPairs, List.mem_cons] at hp
    rcases hp with h | h
    · rw [h]
    · exact ih p h
  | case5 a as b bs hne hle ih => simpa [diffSlice, bothPairs, hne, hle] using ih
  | case6 a as b bs hne hgt ih => simpa [diffSlice, bothPairs, hne, hgt] using ih

theorem bothPairs_fst_sublist [DecidableEq α] (l1 l2 : List α) :
    ((bothPairs (diffSlice l1 l2)).map Prod.fst).Sublist l1 := by
  induction l1, l2 using diffSlice.induct with
  | case1 => simp [diffSlice, bothPairs]
  | case2 a as ih =>
    simpa [diffSlice, bothPairs] using ih.trans (List.sublist_cons_self a as)
  | case3 b bs ih => simpa [diffSlice, bothPairs] using ih
  | case4 as b bs ih =>
    simp only [diffSlice, if_pos rfl, bothPairs, List.map_cons]
    exact List.cons_sublist_cons.mpr ih
  | case5 a as b bs hne hle ih =>
    simp only [diffSlice, hne, if_neg, ite_false, if_pos hle, bothPairs]
    exact ih.trans (List.sublist_cons_self a as)
  | case6 a as b bs hne hgt ih => simpa [diffSlice, bothPairs, hne, hgt] using ih

theorem bothPairs_snd_sublist [DecidableEq α] (l1 l2 : List α) :
    ((bothPairs (diffSlice l1 l2)).map Prod.snd).Sublist l2 := by
  induction l1, l2 using diffSlice.induct with
  | case1 => simp [diffSlice, bothPairs]
  | case2 a as ih => simpa [diffSlice, bothPairs] using ih
  | case3 b bs ih =>
    simpa [diffSlice, bothPairs] using ih.trans (List.sublist_cons_self b bs)
  | case4 as b bs ih =>
    simp only [diffSlice, if_pos rfl, bothPairs, List.map_cons]
    exact List.cons_sublist_cons.mpr ih
  | case5 a as b bs hne hle ih => simpa [diffSlice, bothPairs, hne, hle] using ih
  | case6 a as b bs hne hgt ih =>
    simp only [diffSlice, hne, if_neg, ite_false, if_neg hgt, bothPairs]
    exact ih.trans (List.sublist_cons_self b bs)

theorem lcsLen_nil_right [DecidableEq α] (l : List α) : lcsLen l [] = 0 := by
  cases l <;> simp [lcsLen]

theorem bothPairs_length_eq_lcsLen [DecidableEq α] (l1 l2 : List α) :
    (bothPairs (diffSlice l1 l2)).length = lcsLen l1 l2 := by
  induction l1, l2 using diffSlice.induct with
  | case1 => simp [diffSlice, bothPairs, lcsLen]
  | case2 a as ih => simp only [diffSlice, bothPairs, ih, lcsLen_nil_right]
  | case3 b bs ih => simpa [diffSlice, bothPairs, lcsLen] using ih
  | case4 as b bs ih => simp [diffSlice, bothPairs, lcsLen, ih]
  | case5 a as b bs hne hle ih =>
    simp only [diffSlice, hne, if_neg, ite_false, if_pos hle, bothPairs, lcsLen, ih]
    exact (Nat.max_eq_left hle).symm
  | case6 a as b bs hne hgt ih =>
    simp only [diffSlice, hne, if_neg, ite_false, if_neg hgt, bothPairs, lcsLen, ih]
    exact (Nat.max_eq_right (Nat.le_of_not_le hgt)).symm

theorem length_le_lcsLen [DecidableEq α] (l1 l2 : List α) :
    ∀ cs : List α, cs.Sublist l1 → cs.Sublist l2 → cs.length ≤ lcsLen l1 l2 := by
  induction l1, l2 using lcsLen.induct with
  | case1 l2 =>
    intro cs h1 _
    simp [List.sublist_nil.mp h1, lcsLen]
  | case2 a as =>
    intro cs _ h2
    simp [List.sublist_nil.mp h2]
  | case3 as b bs ih =>
    intro cs h1 h2
    simp only [lcsLen, if_pos rfl]
    rcases List.sublist_cons_iff.mp h1 with has | ⟨r, rfl, hr⟩
    · rcases List.sublist_cons_iff.mp h2 with hbs | ⟨r2, rfl, hr2⟩
      · exact (ih cs has hbs).trans (Nat.le_succ _)
      · have : r2.Sublist as := (List.sublist_cons_self b r2).trans has
        simpa using Nat.succ_le_succ (ih r2 this hr2)
    · rcases List.sublist_cons_iff.mp h2 with hbs | ⟨r2, he, hr2⟩
      · have : r.Sublist bs := (List.sublist_cons_self b r).trans hbs
        simpa using Nat.succ_le_succ (ih r hr this)
      · have hrr : r = r2 := by
          have := he.symm.trans rfl
          cases he
          rfl
        subst hrr
        simpa using Nat.succ_le_succ (ih r hr hr2)
  | case4 a as b bs hne ih1 ih2 =>
    intro cs h1 h2
    simp only [lcsLen, if_neg hne]
    rcases List.sublist_cons_iff.mp h1 with has | ⟨r, rfl, hr⟩
    · exact (ih1 cs has h2).trans (Nat.le_max_left _ _)
    · rcases List.sublist_cons_iff.mp h2 with hbs | ⟨r2, he, _⟩
      · exact (ih2 _ h1 hbs).trans (Nat.le_max_right _ _)
      · exact absurd (List.cons.injEq .. ▸ he).1 hne

theorem diffSlice_self [DecidableEq α] (l : List α) :
    diffSlice l l = l.map (fun a => .both a a) := by
  induction l with
  | nil => simp [diffSlice]
  | cons a as ih => simp [diffSlice, ih]

theorem diffSlice_no_change_iff [DecidableEq α] (l1 l2 : List α) :
    (diffSlice l1 l2).any isChange = false ↔ l1 = l2 := by
  constructor
  · induction l1, l2 using diffSlice.induct with
    | case1 => simp
    | case2 a as ih => simp [diffSlice, isChange]
    | case3 b bs ih => simp [diffSlice, isChange]
    | case4 as b bs ih =>
      intro h
      simp only [diffSlice, if_pos rfl, List.any_cons, isChange,
        Bool.false_or] at h
      rw [ih h]
    | case5 a as b bs hne hle ih => simp [diffSlice, hne, hle, isChange]
    | case6 a as b bs hne hgt ih => simp [diffSlice, hne, hgt, isChange]
  · rintro rfl
    rw [diffSlice_self]
    simp [isChange]

/-! ## String helpers -/

theorem string_length_eq_zero_iff (s : String) : s.length = 0 ↔ s = "" := by
  cases s with
  | mk data =>
    constructor
    · intro h
      have hd : data = [] := List.length_eq_zero.mp h
      rw [hd]
    · intro h
      rw [h]
      rfl

theorem string_append_eq_empty_iff (a b : String) : a ++ b = "" ↔ a = "" ∧ b = "" := by
  constructor
  · intro h
    have hl : (a ++ b).length = ("" : String).length := by rw [h]
    rw [String.length_append] at hl
    have h0 : a.length = 0 ∧ b.length = 0 := by
      have : ("" : String).length = 0 := rfl
      omega
    exact ⟨(string_length_eq_zero_iff a).mp h0.1, (string_length_eq_zero_iff b).mp h0.2⟩
  · rintro ⟨rfl, rfl⟩
    rfl

theorem string_append_ne_empty_right (a b : String) (h : b ≠ "") : a ++ b ≠ "" :=
  fun hh => h ((string_append_eq_empty_iff a b).mp hh).2

theorem string_isEmpty_iff (s : String) : s.isEmpty = true ↔ s = "" :=
  String.isEmpty_iff s

/-! ## The rendered form of diff_slices -/

theorem diff_slices_foldl_spec [DecidableEq α] (disp : α → String)
    (items : List (DiffItem α)) (acc : String) (flag : Bool) :
    items.foldl
      (fun acc item =>
        match item with
        | .left i => (acc.1 ++ ("-" ++ disp i ++ "\n"), true)
        | .both i _ => (acc.1 ++ (" " ++ disp i ++ "\n"), acc.2)
        | .right i => (acc.1 ++ ("+" ++ disp i ++ "\n"), true))
      (acc, flag) =
      (acc ++ renderAll disp items, flag || items.any isChange) := by
  induction items generalizing acc flag with
  | nil => simp [renderAll]
  | cons i rest ih =>
    simp only [List.foldl_cons]
    cases i with
    | left a =>
      exact (ih _ _).trans (by
        simp [renderAll, renderItem, isChange, String.append_assoc, Prod.ext_iff])
    | both a b =>
      exact (ih _ _).trans (by
        simp [renderAll, renderItem, isChange, String.append_assoc, Prod.ext_iff])
    | right b =>
      exact (ih _ _).trans (by
        simp [renderAll, renderItem, isChange, String.append_assoc, Prod.ext_iff])

theorem diff_slices_eq (disp : α → String) [DecidableEq α] (n1 : String)
    (l1 : List α) (n2 : String) (l2 : List α) :
    diff_slices disp n1 l1 n2 l2 =
      if (diffSlice l1 l2).any isChange then
        some (("--- " ++ n1 ++ "\n+++ " ++ n2 ++ "\n") ++
          renderAll disp (diffSlice l1 l2))
      else none := by
  simp only [diff_slices]
  rw [diff_slices_foldl_spec]
  simp

theorem diff_slices_eq_none_iff [DecidableEq α] (disp : α → String)
    (n1 : String) (l1 : List α) (n2 : String) (l2 : List α) :
    diff_slices disp n1 l1 n2 l2 = none ↔ l1 = l2 := by
  rw [diff_slices_eq]
  cases h : (diffSlice l1 l2).any isChange with
  | false => simpa [h] using (diffSlice_no_change_iff l1 l2).mp h
  | true =>
    simp only [ite_true, reduceCtorEq, false_iff]
    intro he
    have := (diffSlice_no_change_iff l1 l2).mpr he
    rw [h] at this
    exact absurd this (by simp)

theorem diff_slices_self_eq_none [DecidableEq α] (disp : α → String)
    (n1 n2 : String) (l : List α) : diff_slices disp n1 l n2 l = none :=
  (diff_slices_eq_none_iff disp n1 l n2 l).mpr rfl

theorem diff_slices_some_eq [DecidableEq α] (disp : α → String) (n1 : String)
    (l1 : List α) (n2 : String) (l2 : List α) (s : String)
    (h : diff_slices disp n1 l1 n2 l2 = some s) :
    s = ("--- " ++ n1 ++ "\n+++ " ++ n2 ++ "\n") ++
      renderAll disp (diffSlice l1 l2) := by
  rw [diff_slices_eq] at h
  cases hc : (diffSlice l1 l2).any isChange with
  | false =>
    rw [hc] at h
    simp at h
  | true =>
    rw [hc] at h
    simpa using h.symm

/-! ## Sorting of index lists -/

theorem sortIndices_perm (l : List Index) : (sortIndices l).Perm l :=
  List.mergeSort_perm l _

theorem sortIndices_mem_iff (i : Index) (l : List Index) :
    i ∈ sortIndices l ↔ i ∈ l :=
  (sortIndices_perm l).mem_iff

theorem sortIndices_pairwise (l : List Index) :
    (sortIndices l).Pairwise (fun a b => a.name ≤ b.name) := by
  have h := @List.sorted_mergeSort Index (fun a b : Index => decide (a.name ≤ b.name))
    (fun a b c hab hbc => by
      simp only [decide_eq_true_eq] at *
      exact le_trans hab hbc)
    (fun a b => by
      simp only [Bool.or_eq_true, decide_eq_true_eq]
      exact le_total a.name b.name) l
  refine h.imp ?_
  intro a b hab
  simpa using hab

theorem sortIndices_eq_of_perm (l1 l2 : List Index) (hp : l1.Perm l2)
    (hn : (l1.map Index.name).Nodup) : sortIndices l1 = sortIndices l2 := by
  have hperm : (sortIndices l1).Perm (sortIndices l2) :=
    ((sortIndices_perm l1).trans hp).trans (sortIndices_perm l2).symm
  have hn1 : ((sortIndices l1).map Index.name).Nodup :=
    (((sortIndices_perm l1).map Index.name).nodup_iff).mpr hn
  have hn2 : ((sortIndices l2).map Index.name).Nodup :=
    ((hperm.map Index.name).nodup_iff).mp hn1
  have hlt1 : (sortIndices l1).Pairwise (fun a b => a.name < b.name) :=
    ((sortIndices_pairwise l1).and (List.pairwise_map.mp hn1)).imp
      (fun h => lt_of_le_of_ne h.1 h.2)
  have hlt2 : (sortIndices l2).Pairwise (fun a b => a.name < b.name) :=
    ((sortIndices_pairwise l2).and (List.pairwise_map.mp hn2)).imp
      (fun h => lt_of_le_of_ne h.1 h.2)
  exact @List.eq_of_perm_of_sorted Index (fun a b => a.name < b.name)
    ⟨fun a b h1 h2 => absurd h2 (not_lt_of_lt h1)⟩ _ _ hperm hlt1 hlt2

theorem labeledBlock_eq_empty_iff (label : String) (o : Option String)
    (hl : label ≠ "") : labeledBlock label o = "" ↔ o = none := by
  cases o with
  | none => simp [labeledBlock]
  | some d =>
    simp only [labeledBlock]
    constructor
    · intro h
      exact absurd ((string_append_eq_empty_iff label d).mp h).1 hl
    · intro h
      exact absurd h (by simp)

theorem isOkB_iff_exists {β : Type v} (e : Except CatalogError β) :
    isOkB e = true ↔ ∃ x, e = .ok x := by
  cases e <;> simp [isOkB]

theorem indexIntroOk_cons (c1 c2 : Conn) (i : Index) (rest : List Index) :
    indexIntroOk c1 c2 (i :: rest) =
      ((isOkB (get_index_columns c1 i.name) &&
        isOkB (get_index_columns c2 i.name)) && indexIntroOk c1 c2 rest) := by
  simp [indexIntroOk]

theorem indexNoBlocks_cons (n1 : String) (c1 : Conn) (n2 : String) (c2 : Conn)
    (i : Index) (rest : List Index) :
    indexNoBlocks n1 c1 n2 c2 (i :: rest) =
      ((match get_index_columns c1 i.name, get_index_columns c2 i.name with
        | .ok a, .ok b => (diff_slices dispIndexColumn n1 a n2 b).isNone
        | _, _ => false) && indexNoBlocks n1 c1 n2 c2 rest) := by
  simp [indexNoBlocks]

theorem indexColumnBlocks_isOk (n1 : String) (c1 : Conn) (n2 : String)
    (c2 : Conn) (t : String) (is : List Index) :
    isOkB (indexColumnBlocks n1 c1 n2 c2 t is) = indexIntroOk c1 c2 is := by
  induction is with
  | nil => simp [indexColumnBlocks, indexIntroOk, isOkB]
  | cons i rest ih =>
    rw [indexIntroOk_cons]
    simp only [indexColumnBlocks]
    cases h1 : get_index_columns c1 i.name with
    | error e => simp [isOkB]
    | ok a =>
      cases h2 : get_index_columns c2 i.name with
      | error e => simp [isOkB]
      | ok b =>
        cases hr : indexColumnBlocks n1 c1 n2 c2 t rest with
        | error e =>
          rw [hr] at ih
          rw [← ih]
          simp [isOkB]
        | ok rest_s =>
          rw [hr] at ih
          rw [← ih]
          simp [isOkB]

theorem indexColumnBlocks_empty_iff (n1 : String) (c1 : Conn) (n2 : String)
    (c2 : Conn) (t : String) (is : List Index) (s : String)
    (h : indexColumnBlocks n1 c1 n2 c2 t is = .ok s) :
    s = "" ↔ indexNoBlocks n1 c1 n2 c2 is = true := by
  induction is generalizing s with
  | nil =>
    simp only [indexColumnBlocks, Except.ok.injEq] at h
    subst h
    simp [indexNoBlocks]
  | cons i rest ih =>
    simp only [indexColumnBlocks] at h
    cases h1 : get_index_columns c1 i.name with
    | error e => rw [h1] at h; simp at h
    | ok a =>
      rw [h1] at h
      cases h2 : get_index_columns c2 i.name with
      | error e => rw [h2] at h; simp at h
      | ok b =>
        rw [h2] at h
        cases hr : indexColumnBlocks n1 c1 n2 c2 t rest with
        | error e => rw [hr] at h; simp at h
        | ok rest_s =>
          rw [hr] at h
          simp only [Except.ok.injEq] at h
          subst h
          rw [string_append_eq_empty_iff,
            labeledBlock_eq_empty_iff _ _ (string_append_ne_empty_right _ _ (by decide)),
            ih rest_s hr, indexNoBlocks_cons, h1, h2]
          simp [Option.isNone_iff_eq_none]

theorem tableBlocks_isOk (n1 : String) (c1 : Conn) (n2 : String) (c2 : Conn)
    (ts : List String) :
    isOkB (tableBlocks n1 c1 n2 c2 ts) = ts.all (tableIntroOk c1 c2) := by
  induction ts with
  | nil => simp [tableBlocks, isOkB]
  | cons t rest ih =>
    simp only [tableBlocks, List.all_cons, tableIntroOk]
    cases h1 : get_table_columns c1 t with
    | error e => simp [isOkB]
    | ok columns1 =>
      cases h2 : get_table_columns c2 t with
      | error e => simp [isOkB]
      | ok columns2 =>
        cases h3 : get_indices c1 t with
        | error e => simp [isOkB]
        | ok indices1 =>
          cases h4 : get_indices c2 t with
          | error e => simp [isOkB]
          | ok indices2 =>
            simp only [isOkB]
            have h5' := indexColumnBlocks_isOk n1 c1 n2 c2 t (sortIndices indices1)
            cases h5 : indexColumnBlocks n1 c1 n2 c2 t (sortIndices indices1) with
            | error e =>
              rw [h5] at h5'
              rw [← h5']
              simp [isOkB]
            | ok ic_s =>
              rw [h5] at h5'
              rw [← h5']
              cases hr : tableBlocks n1 c1 n2 c2 rest with
              | error e =>
                rw [hr] at ih
                rw [← ih]
                simp [isOkB]
              | ok rest_s =>
                rw [hr] at ih
                rw [← ih]
                simp [isOkB]

theorem tableBlocks_empty_iff (n1 : String) (c1 : Conn) (n2 : String)
    (c2 : Conn) (ts : List String) (s : String)
    (h : tableBlocks n1 c1 n2 c2 ts = .ok s) :
    s = "" ↔ ts.all (tableNoBlocks n1 c1 n2 c2) = true := by
  induction ts generalizing s with
  | nil =>
    simp only [tableBlocks, Except.ok.injEq] at h
    subst h
    simp
  | cons t rest ih =>
    simp only [tableBlocks] at h
    cases h1 : get_table_columns c1 t with
    | error e => simp [h1] at h
    | ok columns1 =>
      cases h2 : get_table_columns c2 t with
      | error e => simp [h1, h2] at h
      | ok columns2 =>
        cases h3 : get_indices c1 t with
        | error e => simp [h1, h2, h3] at h
        | ok indices1 =>
          cases h4 : get_indices c2 t with
          | error e => simp [h1, h2, h3, h4] at h
          | ok indices2 =>
            cases h5 : indexColumnBlocks n1 c1 n2 c2 t (sortIndices indices1) with
            | error e => simp [h1, h2, h3, h4, h5] at h
            | ok ic_s =>
              cases hr : tableBlocks n1 c1 n2 c2 rest with
              | error e => simp [h1, h2, h3, h4, h5, hr] at h
              | ok rest_s =>
                simp only [h1, h2, h3, h4, h5, hr, Except.ok.injEq] at h
                subst h
                rw [string_append_eq_empty_iff, string_append_eq_empty_iff,
                  string_append_eq_empty_iff,
                  labeledBlock_eq_empty_iff _ _
                    (string_append_ne_empty_right _ _ (by decide)),
                  labeledBlock_eq_empty_iff _ _
                    (string_append_ne_empty_right _ _ (by decide)),
                  indexColumnBlocks_empty_iff n1 c1 n2 c2 t _ _ h5,
                  ih rest_s hr]
                simp only [List.all_cons, Bool.and_eq_true, tableNoBlocks, h1, h2,
                  h3, h4, Option.isNone_iff_eq_none]
                tauto

theorem if_isEmpty_eq_none_iff (s : String) :
    (if s.isEmpty then (none : Option String) else some s) = none ↔ s = "" := by
  cases hie : s.isEmpty with
  | false =>
    simp only [Bool.false_eq_true, if_false]
    constructor
    · intro hc
      exact absurd hc (by simp)
    · intro hc
      subst hc
      exact absurd hie (by decide)
  | true =>
    simp only [if_true]
    simp [(string_isEmpty_iff s).mp hie]

theorem get_diffs_ok_iff (n1 : String) (c1 : Conn) (n2 : String) (c2 : Conn) :
    (∃ r, get_diffs n1 c1 n2 c2 = .ok r) ↔ introOk c1 c2 = true := by
  simp only [get_diffs, introOk]
  cases ht1 : get_tables c1 with
  | error e => simp
  | ok t1 =>
    cases ht2 : get_tables c2 with
    | error e => simp
    | ok t2 =>
      simp only []
      have hTB := tableBlocks_isOk n1 c1 n2 c2 t1
      cases hb : tableBlocks n1 c1 n2 c2 t1 with
      | error e =>
        rw [hb] at hTB
        simp only [isOkB] at hTB
        rw [← hTB]
        simp
      | ok body =>
        rw [hb] at hTB
        simp only [isOkB] at hTB
        rw [← hTB]
        simp

theorem get_diffs_ok_none_iff (n1 : String) (c1 : Conn) (n2 : String)
    (c2 : Conn) :
    get_diffs n1 c1 n2 c2 = .ok none ↔
      (introOk c1 c2 = true ∧ noBlocks n1 c1 n2 c2 = true) := by
  simp only [get_diffs, introOk, noBlocks]
  cases ht1 : get_tables c1 with
  | error e => simp
  | ok t1 =>
    cases ht2 : get_tables c2 with
    | error e => simp
    | ok t2 =>
      simp only []
      have hTB := tableBlocks_isOk n1 c1 n2 c2 t1
      cases hb : tableBlocks n1 c1 n2 c2 t1 with
      | error e =>
        rw [hb] at hTB
        simp only [isOkB] at hTB
        rw [← hTB]
        simp
      | ok body =>
        rw [hb] at hTB
        simp only [isOkB] at hTB
        simp only [Except.ok.injEq]
        rw [if_isEmpty_eq_none_iff, string_append_eq_empty_iff,
          labeledBlock_eq_empty_iff _ _ (string_append_ne_empty_right _ _ (by decide)),
          tableBlocks_empty_iff n1 c1 n2 c2 t1 body hb, ← hTB]
        simp [Option.isNone_iff_eq_none]

theorem introOk_elim (c1 c2 : Conn) (h : introOk c1 c2 = true) :
    ∃ t1 t2, get_tables c1 = .ok t1 ∧ get_tables c2 = .ok t2 ∧
      ∀ t ∈ t1, tableIntroOk c1 c2 t = true := by
  simp only [introOk] at h
  cases ht1 : get_tables c1 with
  | error e => rw [ht1] at h; simp at h
  | ok t1 =>
    rw [ht1] at h
    cases ht2 : get_tables c2 with
    | error e => rw [ht2] at h; simp at h
    | ok t2 =>
      rw [ht2] at h
      refine ⟨t1, t2, rfl, rfl, ?_⟩
      simp only [] at h
      exact List.all_eq_true.mp h

theorem tableIntroOk_parts (c1 c2 : Conn) (t : String)
    (h : tableIntroOk c1 c2 t = true) :
    isOkB (get_table_columns c1 t) = true ∧
    isOkB (get_table_columns c2 t) = true ∧
    isOkB (get_indices c1 t) = true ∧
    isOkB (get_indices c2 t) = true ∧
    ∀ l, get_indices c1 t = .ok l → indexIntroOk c1 c2 (sortIndices l) = true := by
  simp only [tableIntroOk, Bool.and_eq_true] at h
  obtain ⟨⟨⟨⟨h1, h2⟩, h3⟩, h4⟩, h5⟩ := h
  refine ⟨h1, h2, h3, h4, ?_⟩
  intro l hl
  rw [hl] at h5
  simpa using h5

theorem indexNoBlocks_self (n1 n2 : String) (c : Conn) (is : List Index)
    (h : indexIntroOk c c is = true) : indexNoBlocks n1 c n2 c is = true := by
  simp only [indexIntroOk, List.all_eq_true] at h
  simp only [indexNoBlocks, List.all_eq_true]
  intro i hi
  obtain ⟨a, ha⟩ := (isOkB_iff_exists _).mp (Bool.and_eq_true .. ▸ (h i hi)).1
  rw [ha]
  simp [diff_slices_self_eq_none]

theorem tableNoBlocks_self (n1 n2 : String) (c : Conn) (t : String)
    (h : tableIntroOk c c t = true) : tableNoBlocks n1 c n2 c t = true := by
  obtain ⟨h1, _, h3, _, h5⟩ := tableIntroOk_parts c c t h
  obtain ⟨a, ha⟩ := (isOkB_iff_exists _).mp h1
  obtain ⟨l, hl⟩ := (isOkB_iff_exists _).mp h3
  simp only [tableNoBlocks, ha, hl, Bool.and_eq_true]
  refine ⟨by simp [diff_slices_self_eq_none], ?_, ?_⟩
  · simp [diff_slices_self_eq_none]
  · exact indexNoBlocks_self n1 n2 c (sortIndices l) (h5 l hl)

theorem introOk_self_noBlocks (n1 n2 : String) (c : Conn)
    (h : introOk c c = true) : noBlocks n1 c n2 c = true := by
  obtain ⟨t1, t2, ht1, ht2, hall⟩ := introOk_elim c c h
  have h12 : t1 = t2 := by
    rw [ht1] at ht2
    exact (Except.ok.injEq .. ▸ ht2)
  subst h12
  simp only [noBlocks, ht1, Bool.and_eq_true]
  refine ⟨by simp [diff_slices_self_eq_none], ?_⟩
  rw [List.all_eq_true]
  intro t ht
  exact tableNoBlocks_self n1 n2 c t (hall t ht)

/-! ## Rendering as a join of lines -/

theorem string_foldl_append_shift (l : List String) (acc : String) :
    l.foldl (· ++ ·) acc = acc ++ l.foldl (· ++ ·) "" := by
  induction l generalizing acc with
  | nil => simp
  | cons s rest ih =>
    rw [List.foldl_cons, List.foldl_cons, ih, ih ("" ++ s)]
    simp [String.append_assoc]

theorem string_join_cons (s : String) (l : List String) :
    String.join (s :: l) = s ++ String.join l := by
  simp only [String.join, List.foldl_cons]
  rw [string_foldl_append_shift]
  simp

theorem renderAll_eq_join (disp : α → String) (items : List (DiffItem α)) :
    renderAll disp items = String.join (items.map (renderItem disp)) := by
  induction items with
  | nil => simp [renderAll, String.join]
  | cons i rest ih => rw [renderAll, List.map_cons, string_join_cons, ih]

/-! ## The checked rendering never panics -/

theorem checked_foldl_eq [DecidableEq α] (disp : α → String)
    (items : List (DiffItem α)) (acc : String) (flag : Bool) :
    items.foldl
      (fun acc item =>
        match acc with
        | none => none
        | some (buf, changed) =>
          let res := match item with
            | DiffItem.left i => (writeString buf ("-" ++ disp i ++ "\n"), true)
            | DiffItem.both i _ => (writeString buf (" " ++ disp i ++ "\n"), changed)
            | DiffItem.right i => (writeString buf ("+" ++ disp i ++ "\n"), true)
          match res with
          | (.error _, _) => none
          | (.ok buf2, changed2) => some (buf2, changed2))
      (some (acc, flag)) =
      some (items.foldl
        (fun acc item =>
          match item with
          | DiffItem.left i => (acc.1 ++ ("-" ++ disp i ++ "\n"), true)
          | DiffItem.both i _ => (acc.1 ++ (" " ++ disp i ++ "\n"), acc.2)
          | DiffItem.right i => (acc.1 ++ ("+" ++ disp i ++ "\n"), true))
        (acc, flag)) := by
  induction items generalizing acc flag with
  | nil => simp
  | cons i rest ih =>
    simp only [List.foldl_cons]
    cases i with
    | left a => exact ih _ _
    | both a b => exact ih _ _
    | right b => exact ih _ _

/-! ## The constructed pragma queries -/

theorem scanQuotedIdent_no_quote (t : List Char) (h : '"' ∉ t) :
    scanQuotedIdent (t ++ ['"', ')']) = some (t, [')']) := by
  induction t with
  | nil => rfl
  | cons c t' ih =>
    have hc : c ≠ '"' := fun hh => h (by simp [hh])
    have ht' : '"' ∉ t' := fun hh => h (List.mem_cons_of_mem _ hh)
    rw [List.cons_append, scanQuotedIdent.eq_def]
    simp only []
    rw [if_neg hc, ih ht']

theorem parseIdentQuery_append (kw t : List Char) (h : '"' ∉ t) :
    parseIdentQuery kw (kw ++ (t ++ ['"', ')'])) = some t := by
  unfold parseIdentQuery
  rw [List.take_left kw (t ++ ['"', ')']), if_pos rfl,
    List.drop_left kw (t ++ ['"', ')']), scanQuotedIdent_no_quote t h]
  simp

theorem indexIntroOk_sortIndices (c1 c2 : Conn) (l : List Index) :
    indexIntroOk c1 c2 (sortIndices l) = indexIntroOk c1 c2 l := by
  apply Bool.coe_iff_coe.mp
  simp only [indexIntroOk, List.all_eq_true]
  constructor
  · intro h i hi
    exact h i ((sortIndices_mem_iff i l).mpr hi)
  · intro h i hi
    exact h i ((sortIndices_mem_iff i l).mp hi)

/-! ## The claims -/

/-- C1: whenever `get_diffs` returns successfully, every introspection call
its control flow reached succeeded (contrapositive: a failing catalog call
aborts the whole comparison with an error, never a result), and the returned
value is the absent report exactly when no diff block was appended. -/
theorem get_diffs_error_abort (n1 : String) (c1 : Conn) (n2 : String)
    (c2 : Conn) (r : Option String) (h : get_diffs n1 c1 n2 c2 = .ok r) :
    introOk c1 c2 = true ∧ (r = none ↔ noBlocks n1 c1 n2 c2 = true) := by
  have hok : introOk c1 c2 = true := (get_diffs_ok_iff n1 c1 n2 c2).mp ⟨r, h⟩
  refine ⟨hok, ?_, ?_⟩
  · rintro rfl
    exact ((get_diffs_ok_none_iff n1 c1 n2 c2).mp h).2
  · intro hnb
    have h2 := (get_diffs_ok_none_iff n1 c1 n2 c2).mpr ⟨hok, hnb⟩
    rw [h] at h2
    exact Except.ok.inj h2

theorem introOk_connA_self : introOk connA connA = true := by
  simp only [introOk, get_tables, connA]
  simp only [List.all_cons, List.all_nil, Bool.and_true]
  simp only [tableIntroOk, get_table_columns, get_indices, connA,
    indexIntroOk_sortIndices]
  simp [indexIntroOk, get_index_columns, isOkB, connA, idxTs, idxStart]

theorem get_diffs_error_abort_witness :
    introOk connA connA = true ∧
      ((none : Option String) = none ↔ noBlocks "a" connA "b" connA = true) :=
  get_diffs_error_abort "a" connA "b" connA none
    ((get_diffs_ok_none_iff "a" connA "b" connA).mpr
      ⟨introOk_connA_self, introOk_self_noBlocks "a" "b" connA introOk_connA_self⟩)

/-- C2: `diff_slices` returns the absent result exactly when the two slices
are elementwise identical; otherwise it returns the full rendered text,
which begins with the two header lines. -/
theorem diff_slices_none_iff_eq [DecidableEq α] (disp : α → String)
    (n1 : String) (l1 : List α) (n2 : String) (l2 : List α) :
    (diff_slices disp n1 l1 n2 l2 = none ↔ l1 = l2) ∧
    (l1 ≠ l2 → ∃ rest, diff_slices disp n1 l1 n2 l2 =
      some (("--- " ++ n1 ++ "\n+++ " ++ n2 ++ "\n") ++ rest)) := by
  refine ⟨diff_slices_eq_none_iff disp n1 l1 n2 l2, ?_⟩
  intro hne
  cases hopt : diff_slices disp n1 l1 n2 l2 with
  | none => exact absurd ((diff_slices_eq_none_iff disp n1 l1 n2 l2).mp hopt) hne
  | some s =>
    exact ⟨renderAll disp (diffSlice l1 l2),
      by rw [diff_slices_some_eq disp n1 l1 n2 l2 s hopt]⟩

theorem diff_slices_none_iff_eq_witness :
    (diff_slices dispString "x" ["t"] "y" ["u"] = none ↔ (["t"] : List String) = ["u"]) ∧
    ((["t"] : List String) ≠ ["u"] → ∃ rest, diff_slices dispString "x" ["t"] "y" ["u"] =
      some (("--- " ++ "x" ++ "\n+++ " ++ "y" ++ "\n") ++ rest)) :=
  diff_slices_none_iff_eq dispString "x" ["t"] "y" ["u"]

/-- C3: reflexivity: comparing a connection with itself succeeds with the
absent report, provided the connection's catalog answers the comparison's
introspection calls. -/
theorem get_diffs_refl (n : String) (c : Conn) (h : introOk c c = true) :
    get_diffs n c n c = .ok none :=
  (get_diffs_ok_none_iff n c n c).mpr ⟨h, introOk_self_noBlocks n n c h⟩

theorem get_diffs_refl_witness :
    get_diffs "db" connA "db" connA = .ok none :=
  get_diffs_refl "db" connA introOk_connA_self

/-- C6: order independence for indices: if the second connection reports the
same tables, columns and index columns, and for each table an index list
that is a permutation of the first connection's (index names being distinct,
as SQLite guarantees), then the comparison reports no difference — the
name-sorting of both index lists cancels the enumeration order. -/
theorem get_diffs_index_order_independent (n1 : String) (c1 : Conn)
    (n2 : String) (c2 : Conn)
    (hok : introOk c1 c2 = true)
    (hT : get_tables c2 = get_tables c1)
    (hC : ∀ t, get_table_columns c2 t = get_table_columns c1 t)
    (hIC : ∀ s, get_index_columns c2 s = get_index_columns c1 s)
    (hI : ∀ t l1, get_indices c1 t = .ok l1 →
      ∃ l2, get_indices c2 t = .ok l2 ∧ l2.Perm l1 ∧ (l1.map Index.name).Nodup) :
    get_diffs n1 c1 n2 c2 = .ok none := by
  refine (get_diffs_ok_none_iff n1 c1 n2 c2).mpr ⟨hok, ?_⟩
  obtain ⟨t1, t2, ht1, ht2, hall⟩ := introOk_elim c1 c2 hok
  have ht12 : t2 = t1 := by
    rw [hT, ht1] at ht2
    exact (Except.ok.inj ht2).symm
  subst ht12
  simp only [noBlocks, ht1, ht2, Bool.and_eq_true]
  refine ⟨by simp [diff_slices_self_eq_none], ?_⟩
  rw [List.all_eq_true]
  intro t ht
  obtain ⟨hc1, _, hi1, _, hidx⟩ := tableIntroOk_parts c1 c2 t (hall t ht)
  obtain ⟨a, ha⟩ := (isOkB_iff_exists _).mp hc1
  have ha2 : get_table_columns c2 t = .ok a := by rw [hC t]; exact ha
  obtain ⟨l1, hl1⟩ := (isOkB_iff_exists _).mp hi1
  obtain ⟨l2, hl2, hperm, hnodup⟩ := hI t l1 hl1
  simp only [tableNoBlocks, ha, ha2, hl1, hl2, Bool.and_eq_true]
  refine ⟨by simp [diff_slices_self_eq_none], ?_, ?_⟩
  · rw [← sortIndices_eq_of_perm l1 l2 hperm.symm hnodup]
    simp [diff_slices_self_eq_none]
  · rw [indexNoBlocks, List.all_eq_true]
    intro i hi
    have hIdxOk := hidx l1 hl1
    rw [indexIntroOk, List.all_eq_true] at hIdxOk
    have hcall := hIdxOk i hi
    rw [Bool.and_eq_true] at hcall
    obtain ⟨ic, hic⟩ := (isOkB_iff_exists _).mp hcall.1
    have hic2 : get_index_columns c2 i.name = .ok ic := by rw [hIC i.name]; exact hic
    rw [hic, hic2]
    simp [diff_slices_self_eq_none]

theorem introOk_connA_connAperm : introOk connA connAperm = true := by
  simp only [introOk, get_tables, connA, connAperm]
  simp only [List.all_cons, List.all_nil, Bool.and_true]
  simp only [tableIntroOk, get_table_columns, get_indices, connA, connAperm,
    indexIntroOk_sortIndices]
  simp [indexIntroOk, get_index_columns, isOkB, connA, connAperm, idxTs, idxStart]

theorem get_diffs_index_order_independent_witness :
    get_diffs "left" connA "right" connAperm = .ok none := by
  refine get_diffs_index_order_independent "left" connA "right" connAperm
    introOk_connA_connAperm rfl (fun t => rfl) (fun s => rfl) ?_
  intro t l1 h
  by_cases ht : t = "events"
  · subst ht
    simp [get_indices, connA] at h
    subst h
    refine ⟨[idxStart, idxTs], by simp [get_indices, connAperm], ?_, by decide⟩
    exact List.Perm.swap idxTs idxStart []
  · simp [get_indices, connA, ht] at h

/-- C7: order sensitivity for index columns: index-column bindings are
compared in introspection order; if for some index reached by the driver the
two connections report the same bindings in different order, the comparison
both renders a diff for that index's columns and returns a present report. -/
theorem get_diffs_index_column_order_sensitive (n1 : String) (c1 : Conn)
    (n2 : String) (c2 : Conn) (t0 : String) (i0 : Index)
    (tables1 : List String) (l : List Index) (a b : List IndexColumn)
    (hok : introOk c1 c2 = true)
    (ht : get_tables c1 = .ok tables1) (ht0 : t0 ∈ tables1)
    (hl : get_indices c1 t0 = .ok l) (hi0 : i0 ∈ l)
    (ha : get_index_columns c1 i0.name = .ok a)
    (hb : get_index_columns c2 i0.name = .ok b)
    (hperm : b.Perm a) (hne : b ≠ a) :
    diff_slices dispIndexColumn n1 a n2 b ≠ none ∧
      ∃ s, get_diffs n1 c1 n2 c2 = .ok (some s) := by
  have hdiff : diff_slices dispIndexColumn n1 a n2 b ≠ none := by
    intro hc
    exact hne ((diff_slices_eq_none_iff dispIndexColumn n1 a n2 b).mp hc).symm
  refine ⟨hdiff, ?_⟩
  obtain ⟨r, hr⟩ := (get_diffs_ok_iff n1 c1 n2 c2).mpr hok
  cases r with
  | some s => exact ⟨s, hr⟩
  | none =>
    exfalso
    have hnb := ((get_diffs_ok_none_iff n1 c1 n2 c2).mp hr).2
    simp only [noBlocks, ht] at hnb
    cases ht2 : get_tables c2 with
    | error e => rw [ht2] at hnb; simp at hnb
    | ok t2 =>
      rw [ht2] at hnb
      simp only [Bool.and_eq_true, List.all_eq_true] at hnb
      have htb := hnb.2 t0 ht0
      simp only [tableNoBlocks, hl, Bool.and_eq_true] at htb
      have hib := htb.2
      cases hl2 : get_indices c2 t0 with
      | error e => rw [hl2] at hib; simp at hib
      | ok l2 =>
        rw [hl2] at hib
        rw [Bool.and_eq_true, indexNoBlocks, List.all_eq_true] at hib
        have hcell := hib.2 i0 ((sortIndices_mem_iff i0 l).mpr hi0)
        rw [ha, hb] at hcell
        simp only [Option.isNone_iff_eq_none] at hcell
        exact hdiff hcell

theorem introOk_connA_connAswap : introOk connA connAswap = true := by
  simp only [introOk, get_tables, connA, connAswap]
  simp only [List.all_cons, List.all_nil, Bool.and_true]
  simp only [tableIntroOk, get_table_columns, get_indices, connA, connAswap,
    indexIntroOk_sortIndices]
  simp [indexIntroOk, get_index_columns, isOkB, connA, connAswap, idxTs, idxStart]

theorem get_diffs_index_column_order_sensitive_witness :
    diff_slices dispIndexColumn "left" [icTs, icId] "right" [icId, icTs] ≠ none ∧
      ∃ s, get_diffs "left" connA "right" connAswap = .ok (some s) :=
  get_diffs_index_column_order_sensitive "left" connA "right" connAswap
    "events" idxTs ["events"] [idxTs, idxStart] [icTs, icId] [icId, icTs]
    introOk_connA_connAswap
    rfl (by decide)
    (by simp [get_indices, connA]) (by decide)
    (by simp [get_index_columns, connA, idxTs])
    (by simp [get_index_columns, connAswap, idxTs])
    (List.Perm.swap icTs icId []) (by decide)

/-- C5 counterexample: the source interpolates the name between double
quotes with no escaping, so for the one-character name `"` the built query
is not a well-formed single-identifier pragma at all (its quote is
unterminated): the query does not refer to exactly the given identifier. -/
theorem pragma_query_injection_counterexample :
    ¬ (parseIdentQuery "pragma table_info(\"".data
        (tableInfoQuery ['"']) = some ['"']) := by decide

/-- C5 amended: for every name that contains no double-quote character, each
of the three constructed catalog queries is syntactically a single-identifier
pragma referring to exactly the given name; names containing a quote can
change the query's syntax (see the counterexample), as the source's comment
concedes ("just assume sane table names"). -/
theorem pragma_queries_exact_ident (t : List Char) (h : '"' ∉ t) :
    parseIdentQuery "pragma table_info(\"".data (tableInfoQuery t) = some t ∧
    parseIdentQuery "pragma index_list(\"".data (indexListQuery t) = some t ∧
    parseIdentQuery "pragma index_info(\"".data (indexInfoQuery t) = some t := by
  have hsuffix : ("\")" : String).data = ['"', ')'] := rfl
  refine ⟨?_, ?_, ?_⟩
  · rw [tableInfoQuery, hsuffix, List.append_assoc]
    exact parseIdentQuery_append _ t h
  · rw [indexListQuery, hsuffix, List.append_assoc]
    exact parseIdentQuery_append _ t h
  · rw [indexInfoQuery, hsuffix, List.append_assoc]
    exact parseIdentQuery_append _ t h

theorem pragma_queries_exact_ident_witness :
    parseIdentQuery "pragma table_info(\"".data
      (tableInfoQuery "events".data) = some "events".data ∧
    parseIdentQuery "pragma index_list(\"".data
      (indexListQuery "events".data) = some "events".data ∧
    parseIdentQuery "pragma index_info(\"".data
      (indexInfoQuery "events".data) = some "events".data :=
  pragma_queries_exact_ident "events".data (by decide)

/-- C8: the alignment the diff engine produces is a
longest-common-subsequence alignment: its projections restore the two
inputs, every matched pair is structurally equal, the matched elements form
a common subsequence of both inputs, and no common subsequence of the two
inputs is longer. -/
theorem diffSlice_lcs_alignment [DecidableEq α] (l1 l2 : List α) :
    restoreLeft (diffSlice l1 l2) = l1 ∧
    restoreRight (diffSlice l1 l2) = l2 ∧
    (∀ p ∈ bothPairs (diffSlice l1 l2), p.1 = p.2) ∧
    ((bothPairs (diffSlice l1 l2)).map Prod.fst).Sublist l1 ∧
    ((bothPairs (diffSlice l1 l2)).map Prod.fst).Sublist l2 ∧
    ∀ cs : List α, cs.Sublist l1 → cs.Sublist l2 →
      cs.length ≤ ((bothPairs (diffSlice l1 l2)).map Prod.fst).length := by
  refine ⟨restoreLeft_diffSlice l1 l2, restoreRight_diffSlice l1 l2,
    bothPairs_diffSlice_eq l1 l2, bothPairs_fst_sublist l1 l2, ?_, ?_⟩
  · have hmap : (bothPairs (diffSlice l1 l2)).map Prod.fst =
        (bothPairs (diffSlice l1 l2)).map Prod.snd :=
      List.map_eq_map_iff.mpr (bothPairs_diffSlice_eq l1 l2)
    rw [hmap]
    exact bothPairs_snd_sublist l1 l2
  · intro cs h1 h2
    rw [List.length_map, bothPairs_length_eq_lcsLen]
    exact length_le_lcsLen l1 l2 cs h1 h2

/-- C9: every rendered diff is exactly the two header lines
`--- {n1}` and `+++ {n2}` followed by one rendered line per aligned element
(space for common, `-` for left-only, `+` for right-only, each line the
element's display rendering, as `renderItem` spells out). -/
theorem diff_slices_render_format [DecidableEq α] (disp : α → String)
    (n1 : String) (l1 : List α) (n2 : String) (l2 : List α) (s : String)
    (h : diff_slices disp n1 l1 n2 l2 = some s) :
    s = ("--- " ++ n1 ++ "\n+++ " ++ n2 ++ "\n") ++
      String.join ((diffSlice l1 l2).map (renderItem disp)) := by
  rw [diff_slices_some_eq disp n1 l1 n2 l2 s h, renderAll_eq_join]

theorem diff_slices_render_format_witness :
    ("--- x\n+++ y\n-a\n+b\n" : String) =
      ("--- " ++ "x" ++ "\n+++ " ++ "y" ++ "\n") ++
        String.join ((diffSlice ["a"] ["b"]).map (renderItem dispString)) :=
  diff_slices_render_format dispString "x" ["a"] "y" ["b"] "--- x\n+++ y\n-a\n+b\n"
    (by simp [diff_slices, diffSlice, lcsLen, dispString])

/-- C10: rendering into the in-memory string buffer cannot fail (the
`String` writer is infallible), so the `.unwrap()` on each `writeln!` never
panics: the checked rendering always completes with the plain result. -/
theorem diff_slices_checked_never_panics [DecidableEq α] (disp : α → String)
    (n1 : String) (l1 : List α) (n2 : String) (l2 : List α) :
    diff_slices_checked disp n1 l1 n2 l2 = some (diff_slices disp n1 l1 n2 l2) := by
  simp only [diff_slices_checked, diff_slices]
  rw [checked_foldl_eq]

end SchemaCompare
